import Mathlib

/-!
Shallow embedding of `src/image-uploader.tsx` (the `ImageUploader` React
component).  The component's state hooks become the fields of
`UploaderState`; each event handler becomes a pure function from the state
(plus its event payload) to the new state paired with the list of
`onUpload` invocations it performed (each invocation carries the photo list
passed to the parent).  The external storage SDK (`supabase.storage`) and
the uuid generator are modelled by a `StorageEnv` record of response
functions; the platform URL constructor used by `handleAddUrl` is modelled
by a boolean predicate parameter.  JavaScript `Array.prototype.splice`
index normalisation is embedded explicitly (`jsSpliceStart`), so that
`movePhoto`, dnd-kit's `arrayMove` and `handleDragEnd` follow the real
semantics, including negative and out-of-range indices.
-/

namespace ImageUploader

/-- `interface UploadedPhoto { url: string; caption?: string }`. -/
structure UploadedPhoto where
  url : String
  caption : Option String
deriving DecidableEq, Repr

/-- The slice of the browser `File` object the component reads:
`file.name`, `file.type` (MIME type), `file.size` (bytes). -/
structure File where
  name : String
  type : String
  size : Nat
deriving DecidableEq, Repr

/-- The four `useState` hooks of `ImageUploader`:
`uploading`, `error`, `photos`, `imageUrl`. -/
structure UploaderState where
  uploading : Bool
  error : Option String
  photos : List UploadedPhoto
  imageUrl : String
deriving DecidableEq, Repr

/-- External collaborators of one `uploadFiles` run: `uuidv4()` (indexed by
call count within the batch), `supabase.storage.from("locations").upload`
(keyed by the file path; `some msg` models a returned `uploadError`), and
`getPublicUrl` (keyed by the file path; the empty string models a falsy
`data.publicUrl`). -/
structure StorageEnv where
  uuid : Nat → String
  uploadError : String → Option String
  publicUrl : String → String

/-- `const [ ... ] = useState` initial values: `uploading=false`,
`error=null`, `photos=[]`, `imageUrl=""`. -/
def initState : UploaderState :=
  { uploading := false, error := none, photos := [], imageUrl := "" }

/-- The mount `useEffect`: `if (existingPhotos.length > 0) setPhotos(existingPhotos)`.
It calls `setPhotos` directly, not `updatePhotos`, so it emits no
`onUpload` call. -/
def mountEffect (existingPhotos : List UploadedPhoto) (s : UploaderState) :
    UploaderState × List (List UploadedPhoto) :=
  if existingPhotos.length > 0 then ({ s with photos := existingPhotos }, []) else (s, [])

/-- `updatePhotos`: `setPhotos(newPhotos); onUpload(newPhotos)`.  The second
component records the single `onUpload` invocation. -/
def updatePhotos (s : UploaderState) (newPhotos : List UploadedPhoto) :
    UploaderState × List (List UploadedPhoto) :=
  ({ s with photos := newPhotos }, [newPhotos])

/-- `const allowedTypes = ["image/jpeg", "image/png", "image/webp"]`. -/
def allowedTypes : List String := ["image/jpeg", "image/png", "image/webp"]

/-- `const maxSize = 5 * 1024 * 1024`. -/
def maxSize : Nat := 5 * 1024 * 1024

/-- The `files.filter(...)` pass of `uploadFiles`.  The filter callback
calls `setError` for each rejected file, so the error slot is threaded
through and each failing file overwrites it; the first component is the
`validFiles` array, the second the error slot after the pass. -/
def validateFiles : List File → Option String → List File × Option String
  | [], err => ([], err)
  | f :: fs, err =>
    if !(allowedTypes.contains f.type) then
      validateFiles fs (some ("Unsupported file type: " ++ f.name))
    else if f.size > maxSize then
      validateFiles fs (some ("File too large: " ++ f.name ++ " (Max: 5MB)"))
    else
      let r := validateFiles fs err
      (f :: r.1, r.2)

/-- The `for (const file of validFiles)` loop inside the `try` block:
builds `fileName = uuidv4() + "_" + file.name`, uploads, throws on
`uploadError`, throws `"Failed to retrieve public URL"` on a falsy
`publicUrl`, and accumulates `{url, caption: ""}` entries.  `k` counts the
`uuidv4()` calls made so far in this batch. -/
def uploadLoop (env : StorageEnv) : Nat → List File → List UploadedPhoto →
    Except String (List UploadedPhoto)
  | _, [], acc => Except.ok acc
  | k, f :: fs, acc =>
    let filePath := env.uuid k ++ "_" ++ f.name
    match env.uploadError filePath with
    | some msg => Except.error msg
    | none =>
      let url := env.publicUrl filePath
      if url = "" then Except.error "Failed to retrieve public URL"
      else uploadLoop env (k + 1) fs (acc ++ [{ url := url, caption := some "" }])

/-- `uploadFiles`: validation pass, early return when no file passed,
`setUploading(true)`, sequential upload loop, on success
`updatePhotos([...photos, ...uploadedPhotos])`, on a thrown error
`setError(message)` (every throw in the loop is an `Error`, so the
`instanceof Error` branch applies), and `setUploading(false)` in the
`finally` block. -/
def uploadFiles (env : StorageEnv) (files : List File) (s : UploaderState) :
    UploaderState × List (List UploadedPhoto) :=
  let vres := validateFiles files s.error
  let s1 : UploaderState := { s with error := vres.2 }
  if vres.1.length = 0 then (s1, [])
  else
    let s2 : UploaderState := { s1 with uploading := true }
    match uploadLoop env 0 vres.1 [] with
    | Except.ok uploadedPhotos =>
      let r := updatePhotos s2 (s2.photos ++ uploadedPhotos)
      ({ r.1 with uploading := false }, r.2)
    | Except.error msg =>
      ({ s2 with error := some msg, uploading := false }, [])

/-- `handleImageUpload`: clears the error, rejects an empty selection with
`"Please select at least one file."`, otherwise delegates to
`uploadFiles`.  `none` models `event.target.files === null`. -/
def handleImageUpload (env : StorageEnv) (files : Option (List File)) (s : UploaderState) :
    UploaderState × List (List UploadedPhoto) :=
  let s0 : UploaderState := { s with error := none }
  match files with
  | none => ({ s0 with error := some "Please select at least one file." }, [])
  | some fs =>
    if fs.length = 0 then ({ s0 with error := some "Please select at least one file." }, [])
    else uploadFiles env fs s0

/-- `handleAddUrl`.  `canParseURL` models the platform `new URL(...)`
constructor (an external collaborator): `true` means the constructor
succeeds, `false` that it throws.  `if (!imageUrl) return` is the
empty-string test, since the falsy strings are exactly `""`. -/
def handleAddUrl (canParseURL : String → Bool) (s : UploaderState) :
    UploaderState × List (List UploadedPhoto) :=
  if s.imageUrl = "" then (s, [])
  else if !(canParseURL s.imageUrl) then
    ({ s with error := some "Invalid URL format." }, [])
  else
    let r := updatePhotos s (s.photos ++ [{ url := s.imageUrl, caption := some "" }])
    ({ r.1 with imageUrl := "" }, r.2)

/-- JavaScript `Array.prototype.splice` start-index normalisation on an
array of length `len`: a negative start counts from the end (clamped to
0), a non-negative start is clamped to `len`. -/
def jsSpliceStart (len : Nat) (start : Int) : Nat :=
  if start < 0 then ((len : Int) + start).toNat else min start.toNat len

/-- `arr.splice(start, 1)` : the array with the element at the normalised
index removed, paired with that element (`none` when the index is past the
end and nothing is removed). -/
def jsSpliceRemove1 (l : List α) (start : Int) : List α × Option α :=
  (l.eraseIdx (jsSpliceStart l.length start), l[jsSpliceStart l.length start]?)

/-- `arr.splice(start, 0, x)` : insertion at the normalised index. -/
def jsSpliceInsert1 (l : List α) (start : Int) (x : α) : List α :=
  List.insertIdx (jsSpliceStart l.length start) x l

/-- dnd-kit's `arrayMove(array, from, to)`:
`newArray.splice(to < 0 ? newArray.length + to : to, 0, newArray.splice(from, 1)[0])`.
The outer splice's start argument is evaluated against the original
length, before the inner splice shortens the array.  When the inner splice
removes nothing (only possible here on an empty array) JavaScript would
insert `undefined`; that case is unreachable from the component (the drag
context is only rendered when `photos.length > 0`) and is modelled as
leaving the shortened array as is. -/
def arrayMove (l : List α) (fromIdx toIdx : Int) : List α :=
  let pos : Int := if toIdx < 0 then (l.length : Int) + toIdx else toIdx
  match jsSpliceRemove1 l fromIdx with
  | (l2, some x) => jsSpliceInsert1 l2 pos x
  | (l2, none) => l2

/-- `movePhoto(from, to)`: bounds guard on `to` only, then
`updated.splice(from, 1)` / `updated.splice(to, 0, moved)` /
`updatePhotos(updated)`.  The `none` arm (nothing removed, i.e.
`from ≥ photos.length`) would make JavaScript insert `undefined`; it is
unreachable because every call site passes the index of a rendered row. -/
def movePhoto (s : UploaderState) (index : Nat) (toIdx : Int) :
    UploaderState × List (List UploadedPhoto) :=
  if toIdx < 0 ∨ (s.photos.length : Int) ≤ toIdx then (s, [])
  else
    match jsSpliceRemove1 s.photos (index : Int) with
    | (updated, some moved) => updatePhotos s (jsSpliceInsert1 updated toIdx moved)
    | (_, none) => (s, [])

/-- The payload of dnd-kit's `DragEndEvent` that `handleDragEnd` reads:
`active.id` and `over?.id` (`none` models `over === null`). -/
structure DragEndEvent where
  activeId : String
  overId : Option String
deriving DecidableEq, Repr

/-- `photos.findIndex((_, i) => "photo-" + i === target)` : the first index
`i < len` whose id string matches, `-1` when none does (in particular when
`target` is `undefined`, modelled by `none`). -/
def findPhotoIndex (len : Nat) (target : Option String) : Int :=
  match (List.range len).find? (fun i => some ("photo-" ++ toString i) == target) with
  | some i => (i : Int)
  | none => -1

/-- `handleDragEnd`: the guard is `active.id !== over?.id`, which also
holds when `over` is `null` (a string is never `undefined`); inside the
guard both indices are recomputed from the `photo-{index}` ids and
`arrayMove` is applied. -/
def handleDragEnd (s : UploaderState) (e : DragEndEvent) :
    UploaderState × List (List UploadedPhoto) :=
  if e.overId = some e.activeId then (s, [])
  else
    let oldIndex := findPhotoIndex s.photos.length (some e.activeId)
    let newIndex := findPhotoIndex s.photos.length e.overId
    updatePhotos s (arrayMove s.photos oldIndex newIndex)

/-- `removePhoto(index)`: `photos.filter((_, i) => i !== index)` then
`updatePhotos`. -/
def removePhoto (s : UploaderState) (index : Nat) :
    UploaderState × List (List UploadedPhoto) :=
  updatePhotos s ((s.photos.enum.filter (fun p => p.1 != index)).map Prod.snd)

/-- The inline `onCaptionChange` handler of row `index`:
`const updated = [...photos]; updated[index].caption = caption; updatePhotos(updated)`.
When `index` is past the end JavaScript would throw a `TypeError` on the
property assignment; that case is unreachable (the handler is wired to a
rendered row) and is modelled as a no-op. -/
def onCaptionChange (s : UploaderState) (index : Nat) (caption : String) :
    UploaderState × List (List UploadedPhoto) :=
  match s.photos[index]? with
  | some p => updatePhotos s (s.photos.set index { p with caption := some caption })
  | none => (s, [])

/-- Repeated single-step moves: walk `i` toward `j` one position at a time
through `movePhoto(i, i+1)` / `movePhoto(i, i-1)`, exactly the operations
the up/down buttons perform. -/
def repeatedMoves (s : UploaderState) (i j : Nat) : UploaderState :=
  if i < j then
    repeatedMoves (movePhoto s i ((i : Int) + 1)).1 (i + 1) j
  else if j < i then
    repeatedMoves (movePhoto s i ((i : Int) - 1)).1 (i - 1) j
  else s
termination_by (i - j) + (j - i)
decreasing_by
  · omega
  · omega

/-- The pure list operation both `movePhoto` and an in-range `arrayMove`
reduce to: remove the element at `i`, reinsert it at `j`. -/
def listMove (l : List α) (i j : Nat) : List α :=
  match l[i]? with
  | some x => List.insertIdx j x (l.eraseIdx i)
  | none => l

theorem listMove_cons_succ (a : α) (l : List α) (n m : Nat) :
    listMove (a :: l) (n + 1) (m + 1) = a :: listMove l n m := by
  unfold listMove
  cases h : l[n]? with
  | none => simp [h]
  | some x => simp [h, List.insertIdx_succ_cons]

theorem getElem?_append_cons (B C : List α) (x : α) : (B ++ x :: C)[B.length]? = some x := by
  induction B with
  | nil => simp
  | cons b B ih =>
    show (b :: (B ++ x :: C))[B.length + 1]? = some x
    rw [List.getElem?_cons_succ]
    exact ih

theorem eraseIdx_append_cons (B C : List α) (x : α) :
    (B ++ x :: C).eraseIdx B.length = B ++ C := by
  induction B with
  | nil => simp
  | cons b B ih => simpa [List.eraseIdx_cons_succ] using ih

theorem listMove_append_cons (B C : List α) (x : α) :
    listMove (B ++ x :: C) B.length 0 = x :: (B ++ C) := by
  unfold listMove
  rw [getElem?_append_cons]
  show List.insertIdx 0 x ((B ++ x :: C).eraseIdx B.length) = x :: (B ++ C)
  rw [eraseIdx_append_cons, List.insertIdx_zero]

theorem insertIdx_length_append (B C : List α) (x : α) :
    List.insertIdx B.length x (B ++ C) = B ++ x :: C := by
  induction B with
  | nil => simp [List.insertIdx_zero]
  | cons b B ih => simpa [List.insertIdx_succ_cons] using ih

/-- Moving the element after `A` up past `B`. -/
theorem listMove_up_decomp (A : List α) (x : α) (B C : List α) :
    listMove (A ++ x :: (B ++ C)) A.length (A.length + B.length) = A ++ (B ++ x :: C) := by
  induction A with
  | nil =>
    unfold listMove
    simp only [List.nil_append, List.length_nil, Nat.zero_add, List.getElem?_cons_zero,
      List.eraseIdx_cons_zero]
    exact insertIdx_length_append B C x
  | cons a A ih =>
    show listMove (a :: (A ++ x :: (B ++ C))) (A.length + 1) (A.length + 1 + B.length) = _
    have harith : A.length + 1 + B.length = (A.length + B.length) + 1 := by omega
    rw [harith, listMove_cons_succ, ih]
    rfl

/-- Moving the element after `A ++ B` down to sit right after `A`. -/
theorem listMove_down_decomp (A B : List α) (x : α) (C : List α) :
    listMove (A ++ (B ++ x :: C)) (A.length + B.length) A.length = A ++ x :: (B ++ C) := by
  induction A with
  | nil => simpa using listMove_append_cons B C x
  | cons a A ih =>
    show listMove (a :: (A ++ (B ++ x :: C))) (A.length + 1 + B.length) (A.length + 1) = _
    have harith : A.length + 1 + B.length = (A.length + B.length) + 1 := by omega
    rw [harith, listMove_cons_succ, ih]
    rfl

/-- Any list splits as `A ++ x :: (B ++ C)` with `A` of length `i` and `B`
of length `j - i`, whenever `i ≤ j < length`. -/
theorem exists_three_split (l : List α) (i j : Nat) (hij : i ≤ j) (hj : j < l.length) :
    ∃ A x B C, l = A ++ x :: (B ++ C) ∧ A.length = i ∧ B.length = j - i := by
  have hi : i < l.length := Nat.lt_of_le_of_lt hij hj
  have hrest : l.drop i ≠ [] := by
    intro hnil
    have := List.length_drop i l
    rw [hnil] at this
    simp at this
    omega
  cases hd : l.drop i with
  | nil => exact absurd hd hrest
  | cons x rest =>
    refine ⟨l.take i, x, rest.take (j - i), rest.drop (j - i), ?_, ?_, ?_⟩
    · rw [List.take_append_drop (j - i) rest]
      rw [← hd, List.take_append_drop]
    · simpa using Nat.le_of_lt hi
    · have hrl : rest.length = l.length - i - 1 := by
        have := List.length_drop i l
        rw [hd] at this
        simp at this
        omega
      simp only [List.length_take, hrl]
      omega

/-- Same split with the marked element at position `i` and the split point
at `j ≤ i`. -/
theorem exists_three_split_down (l : List α) (j i : Nat) (hji : j ≤ i) (hi : i < l.length) :
    ∃ A B x C, l = A ++ (B ++ x :: C) ∧ A.length = j ∧ B.length = i - j := by
  have hj : j < l.length := Nat.lt_of_le_of_lt hji hi
  have hD : (l.drop j).length = l.length - j := List.length_drop j l
  have hrest : (l.drop j).drop (i - j) ≠ [] := by
    intro hnil
    have := List.length_drop (i - j) (l.drop j)
    rw [hnil, hD] at this
    simp at this
    omega
  cases hd : (l.drop j).drop (i - j) with
  | nil => exact absurd hd hrest
  | cons x C =>
    refine ⟨l.take j, (l.drop j).take (i - j), x, C, ?_, ?_, ?_⟩
    · rw [← hd, List.take_append_drop, List.take_append_drop]
    · simpa using Nat.le_of_lt hj
    · simp only [List.length_take, hD]
      omega

theorem listMove_self (l : List α) (i : Nat) (h : i < l.length) : listMove l i i = l := by
  obtain ⟨A, x, B, C, hl, hA, hB⟩ := exists_three_split l i i (Nat.le_refl i) h
  have hB0 : B = [] := List.length_eq_zero.mp (by omega)
  subst hB0
  have h1 := listMove_up_decomp A x [] C
  simp only [List.nil_append, List.length_nil, Nat.add_zero] at h1
  rw [hl, ← hA]
  simpa using h1

theorem listMove_length (l : List α) (i j : Nat) (hi : i < l.length) (hj : j < l.length) :
    (listMove l i j).length = l.length := by
  have hx : l[i]? = some l[i] := List.getElem?_eq_getElem hi
  have he : (l.eraseIdx i).length = l.length - 1 := by
    rw [List.length_eraseIdx]
    simp [hi]
  unfold listMove
  rw [hx, List.length_insertIdx j _ (by omega)]
  omega

theorem listMove_step_up (l : List α) (i j : Nat) (hij : i < j) (hj : j < l.length) :
    listMove (listMove l i (i + 1)) (i + 1) j = listMove l i j := by
  obtain ⟨A, x, B, C, hl, hA, hB⟩ := exists_three_split l i j (Nat.le_of_lt hij) hj
  cases B with
  | nil => simp at hB; omega
  | cons b B' =>
    have hB' : B'.length = j - i - 1 := by simp at hB; omega
    have e1 := listMove_up_decomp A x [b] (B' ++ C)
    simp only [List.singleton_append, List.cons_append, List.nil_append, List.length_cons,
      List.length_nil, Nat.zero_add] at e1
    have e2 := listMove_up_decomp (A ++ [b]) x B' C
    simp only [List.length_append, List.length_cons, List.length_nil, List.append_assoc,
      List.singleton_append, List.cons_append, List.nil_append, Nat.zero_add] at e2
    have e3 := listMove_up_decomp A x (b :: B') C
    simp only [List.length_cons, List.cons_append, List.nil_append] at e3
    have hidx2 : A.length + 1 + B'.length = j := by omega
    have hidx3 : A.length + (B'.length + 1) = j := by omega
    rw [hidx2] at e2
    rw [hidx3] at e3
    have hlform : l = A ++ x :: b :: (B' ++ C) := by simpa using hl
    rw [hlform, ← hA, e1, e2, e3]

theorem listMove_step_down (l : List α) (i j : Nat) (hji : j < i) (hi : i < l.length) :
    listMove (listMove l i (i - 1)) (i - 1) j = listMove l i j := by
  obtain ⟨A, B, x, C, hl, hA, hB⟩ := exists_three_split_down l j i (Nat.le_of_lt hji) hi
  obtain hB0 | ⟨B', b, hBc⟩ := B.eq_nil_or_concat
  · rw [hB0] at hB; simp at hB; omega
  · subst hBc
    have hB' : B'.length = i - j - 1 := by simp at hB; omega
    have e1 := listMove_down_decomp (A ++ B') [b] x C
    simp only [List.length_append, List.length_cons, List.length_nil, List.append_assoc,
      List.singleton_append, List.cons_append, List.nil_append, Nat.zero_add] at e1
    have e2 := listMove_down_decomp A B' x (b :: C)
    have e3 := listMove_down_decomp A (B' ++ [b]) x C
    simp only [List.length_append, List.length_cons, List.length_nil, List.append_assoc,
      List.singleton_append, List.cons_append, List.nil_append, Nat.zero_add] at e3
    have hidx1 : A.length + B'.length + 1 = i := by omega
    have hidx1b : A.length + B'.length = i - 1 := by omega
    have hidx3 : A.length + (B'.length + 1) = i := by omega
    rw [hidx1, hidx1b] at e1
    rw [hidx1b] at e2
    rw [hidx3] at e3
    have hlform : l = A ++ (B' ++ b :: x :: C) := by
      simpa [List.concat_eq_append] using hl
    rw [hlform, ← hA, e1, e2, e3]

/-- Moving an element down one slot and back up restores the list. -/
theorem listMove_down_up (l : List α) (i : Nat) (h0 : 0 < i) (hi : i < l.length) :
    listMove (listMove l i (i - 1)) (i - 1) i = l := by
  obtain ⟨A, B, x, C, hl, hA, hB⟩ := exists_three_split_down l (i - 1) i (by omega) hi
  have hB1 : B.length = 1 := by omega
  obtain ⟨b, hBb⟩ : ∃ b, B = [b] := by
    cases B with
    | nil => simp at hB1
    | cons b B' =>
      simp at hB1
      exact ⟨b, by rw [hB1]⟩
  subst hBb
  have e1 := listMove_down_decomp A [b] x C
  simp only [List.length_cons, List.length_nil, List.singleton_append, List.cons_append,
    List.nil_append, Nat.zero_add] at e1
  have e2 := listMove_up_decomp A x [b] C
  simp only [List.length_cons, List.length_nil, List.singleton_append, List.cons_append,
    List.nil_append, Nat.zero_add] at e2
  have hidx : A.length + 1 = i := by omega
  rw [hidx] at e1 e2
  have hlform : l = A ++ b :: x :: C := by simpa using hl
  rw [hlform, ← hA, e1, e2]

theorem movePhoto_eq (s : UploaderState) (index : Nat) (t : Int)
    (hidx : index < s.photos.length) (h0 : 0 ≤ t) (hlt : t < (s.photos.length : Int)) :
    movePhoto s index t =
      ({ s with photos := listMove s.photos index t.toNat },
       [listMove s.photos index t.toNat]) := by
  have hguard : ¬ (t < 0 ∨ (s.photos.length : Int) ≤ t) := by omega
  have hs1 : jsSpliceStart s.photos.length (index : Int) = index := by
    unfold jsSpliceStart
    rw [if_neg (by omega)]
    omega
  have hx : s.photos[index]? = some s.photos[index] := List.getElem?_eq_getElem hidx
  have he : (s.photos.eraseIdx index).length = s.photos.length - 1 := by
    rw [List.length_eraseIdx]
    simp [hidx]
  have hs2 : jsSpliceStart (s.photos.eraseIdx index).length t = t.toNat := by
    unfold jsSpliceStart
    rw [if_neg (by omega), he]
    omega
  unfold movePhoto
  rw [if_neg hguard]
  simp only [jsSpliceRemove1, hs1, hx]
  simp only [jsSpliceInsert1, hs2, updatePhotos]
  unfold listMove
  rw [hx]

theorem arrayMove_eq_listMove (l : List α) (i j : Nat) (hi : i < l.length)
    (hj : j < l.length) : arrayMove l (i : Int) (j : Int) = listMove l i j := by
  have hs1 : jsSpliceStart l.length (i : Int) = i := by
    unfold jsSpliceStart
    rw [if_neg (by omega)]
    omega
  have hx : l[i]? = some l[i] := List.getElem?_eq_getElem hi
  have he : (l.eraseIdx i).length = l.length - 1 := by
    rw [List.length_eraseIdx]
    simp [hi]
  have hs2 : jsSpliceStart (l.eraseIdx i).length (j : Int) = j := by
    unfold jsSpliceStart
    rw [if_neg (by omega), he]
    omega
  unfold arrayMove
  rw [if_neg (by omega : ¬ ((j : Int) < 0))]
  simp only [jsSpliceRemove1, hs1, hx]
  simp only [jsSpliceInsert1, hs2]
  unfold listMove
  rw [hx]

/-- `arrayMove` with destination `-1` (the `findIndex` miss value) sends
the removed element to the end of the list. -/
theorem arrayMove_neg_one (l : List α) (k : Nat) (hk : k < l.length) :
    arrayMove l (k : Int) (-1) = l.eraseIdx k ++ [l[k]] := by
  have hs1 : jsSpliceStart l.length (k : Int) = k := by
    unfold jsSpliceStart
    rw [if_neg (by omega)]
    omega
  have hx : l[k]? = some l[k] := List.getElem?_eq_getElem hk
  have he : (l.eraseIdx k).length = l.length - 1 := by
    rw [List.length_eraseIdx]
    simp [hk]
  have hs2 : jsSpliceStart (l.eraseIdx k).length ((l.length : Int) + (-1)) =
      (l.eraseIdx k).length := by
    unfold jsSpliceStart
    rw [if_neg (by omega), he]
    omega
  unfold arrayMove
  rw [if_pos (by omega : (-1 : Int) < 0)]
  simp only [jsSpliceRemove1, hs1, hx]
  simp only [jsSpliceInsert1, hs2]
  rw [List.insertIdx_length_self]

theorem repeatedMoves_photos_aux : ∀ (n : Nat) (s : UploaderState) (i j : Nat),
    (i - j) + (j - i) = n → i < s.photos.length → j < s.photos.length →
    (repeatedMoves s i j).photos = listMove s.photos i j := by
  intro n
  induction n using Nat.strong_induction_on with
  | _ n ih =>
    intro s i j hn hi hj
    rw [repeatedMoves]
    by_cases hij : i < j
    · rw [if_pos hij]
      have ht : ((i : Int) + 1).toNat = i + 1 := by omega
      have hb := movePhoto_eq s i ((i : Int) + 1) hi (by omega) (by omega)
      rw [ht] at hb
      rw [hb]
      have hlen : (listMove s.photos i (i + 1)).length = s.photos.length :=
        listMove_length _ _ _ hi (by omega)
      have hrec := ih ((i + 1 - j) + (j - (i + 1))) (by omega)
        { s with photos := listMove s.photos i (i + 1) } (i + 1) j rfl
        (by show i + 1 < (listMove s.photos i (i + 1)).length; rw [hlen]; omega)
        (by show j < (listMove s.photos i (i + 1)).length; rw [hlen]; omega)
      show (repeatedMoves { s with photos := listMove s.photos i (i + 1) } (i + 1) j).photos =
        listMove s.photos i j
      rw [hrec]
      show listMove (listMove s.photos i (i + 1)) (i + 1) j = listMove s.photos i j
      exact listMove_step_up s.photos i j hij hj
    · by_cases hji : j < i
      · rw [if_neg hij, if_pos hji]
        have ht : ((i : Int) - 1).toNat = i - 1 := by omega
        have hb := movePhoto_eq s i ((i : Int) - 1) hi (by omega) (by omega)
        rw [ht] at hb
        rw [hb]
        have hlen : (listMove s.photos i (i - 1)).length = s.photos.length :=
          listMove_length _ _ _ hi (by omega)
        have hrec := ih ((i - 1 - j) + (j - (i - 1))) (by omega)
          { s with photos := listMove s.photos i (i - 1) } (i - 1) j rfl
          (by show i - 1 < (listMove s.photos i (i - 1)).length; rw [hlen]; omega)
          (by show j < (listMove s.photos i (i - 1)).length; rw [hlen]; omega)
        show (repeatedMoves { s with photos := listMove s.photos i (i - 1) } (i - 1) j).photos =
          listMove s.photos i j
        rw [hrec]
        show listMove (listMove s.photos i (i - 1)) (i - 1) j = listMove s.photos i j
        exact listMove_step_down s.photos i j hji hi
      · have hij2 : i = j := by omega
        rw [if_neg hij, if_neg hji]
        subst hij2
        exact (listMove_self s.photos i hi).symm

theorem repeatedMoves_photos (s : UploaderState) (i j : Nat)
    (hi : i < s.photos.length) (hj : j < s.photos.length) :
    (repeatedMoves s i j).photos = listMove s.photos i j :=
  repeatedMoves_photos_aux ((i - j) + (j - i)) s i j rfl hi hj

/-- The validation predicate of the filter pass: allowed MIME type and
size at most `maxSize`. -/
def isValidFile (f : File) : Bool :=
  allowedTypes.contains f.type && decide (f.size ≤ maxSize)

/-- The message the filter stores for a failing file (the type check runs
first, so its message wins over the size message for a file failing both). -/
def failMsg (f : File) : String :=
  if !(allowedTypes.contains f.type) then "Unsupported file type: " ++ f.name
  else "File too large: " ++ f.name ++ " (Max: 5MB)"

theorem validateFiles_fst : ∀ (files : List File) (err : Option String),
    (validateFiles files err).1 = files.filter isValidFile := by
  intro files
  induction files with
  | nil => intro err; rfl
  | cons f fs ih =>
    intro err
    cases hc : allowedTypes.contains f.type with
    | false =>
      have hmem : f.type ∉ allowedTypes := by simpa using hc
      have hv : isValidFile f = false := by simp [isValidFile, hmem]
      have hcond : (!allowedTypes.contains f.type) = true := by rw [hc]; rfl
      unfold validateFiles
      rw [if_pos hcond, List.filter_cons, hv]
      simp only [Bool.false_eq_true, if_false]
      exact ih _
    | true =>
      have hmem : f.type ∈ allowedTypes := by simpa using hc
      cases hs : decide (f.size ≤ maxSize) with
      | false =>
        have hgt : f.size > maxSize := by
          have := of_decide_eq_false hs
          omega
        have hv : isValidFile f = false := by
          simp [isValidFile, hmem]
          omega
        have hcond : ¬ ((!allowedTypes.contains f.type) = true) := by rw [hc]; simp
        unfold validateFiles
        rw [if_neg hcond, if_pos hgt, List.filter_cons, hv]
        simp only [Bool.false_eq_true, if_false]
        exact ih _
      | true =>
        have hle : f.size ≤ maxSize := of_decide_eq_true hs
        have hv : isValidFile f = true := by
          simp [isValidFile]
          exact ⟨hmem, hle⟩
        have hcond : ¬ ((!allowedTypes.contains f.type) = true) := by rw [hc]; simp
        have hcond2 : ¬ (f.size > maxSize) := by omega
        unfold validateFiles
        rw [if_neg hcond, if_neg hcond2, List.filter_cons, hv]
        show f :: (validateFiles fs err).1 = f :: fs.filter isValidFile
        rw [ih]

theorem isValidFile_contains {f : File} (h : isValidFile f = true) :
    allowedTypes.contains f.type = true := by
  have := h
  unfold isValidFile at this
  exact (Bool.and_eq_true_iff.mp this).1

theorem isValidFile_size {f : File} (h : isValidFile f = true) : f.size ≤ maxSize := by
  have := h
  unfold isValidFile at this
  have h2 := (Bool.and_eq_true_iff.mp this).2
  exact of_decide_eq_true h2

theorem validateFiles_all_valid : ∀ (files : List File) (err : Option String),
    (∀ f ∈ files, isValidFile f = true) → validateFiles files err = (files, err) := by
  intro files
  induction files with
  | nil => intro err h; rfl
  | cons f fs ih =>
    intro err h
    have hf : isValidFile f = true := h f (List.mem_cons_self f fs)
    have hc := isValidFile_contains hf
    have hle := isValidFile_size hf
    have hcond : ¬ ((!allowedTypes.contains f.type) = true) := by rw [hc]; simp
    have hcond2 : ¬ (f.size > maxSize) := by omega
    have ih2 := ih err (fun g hg => h g (List.mem_cons_of_mem f hg))
    unfold validateFiles
    rw [if_neg hcond, if_neg hcond2, ih2]

theorem validateFiles_snd_append_invalid : ∀ (files : List File) (f : File)
    (err : Option String), isValidFile f = false →
    (validateFiles (files ++ [f]) err).2 = some (failMsg f) := by
  intro files
  induction files with
  | nil =>
    intro f err h
    cases hc : allowedTypes.contains f.type with
    | false =>
      have hcond : (!allowedTypes.contains f.type) = true := by rw [hc]; rfl
      show (validateFiles [f] err).2 = some (failMsg f)
      unfold validateFiles
      rw [if_pos hcond]
      unfold failMsg
      rw [if_pos hcond]
      rfl
    | true =>
      have hmem : f.type ∈ allowedTypes := by simpa using hc
      have hgt : f.size > maxSize := by
        have : ¬ (f.size ≤ maxSize) := by
          intro hle
          rw [show isValidFile f = true by simp [isValidFile]; exact ⟨hmem, hle⟩] at h
          simp at h
        omega
      have hcond : ¬ ((!allowedTypes.contains f.type) = true) := by rw [hc]; simp
      show (validateFiles [f] err).2 = some (failMsg f)
      unfold validateFiles
      rw [if_neg hcond, if_pos hgt]
      unfold failMsg
      rw [if_neg hcond]
      rfl
  | cons g gs ih =>
    intro f err h
    show (validateFiles (g :: (gs ++ [f])) err).2 = some (failMsg f)
    unfold validateFiles
    by_cases hcond : (!allowedTypes.contains g.type) = true
    · rw [if_pos hcond]
      exact ih f _ h
    · rw [if_neg hcond]
      by_cases hsz : g.size > maxSize
      · rw [if_pos hsz]
        exact ih f _ h
      · rw [if_neg hsz]
        exact ih f _ h

theorem validateFiles_snd_append_valid : ∀ (files : List File) (f : File)
    (err : Option String), isValidFile f = true →
    (validateFiles (files ++ [f]) err).2 = (validateFiles files err).2 := by
  intro files
  induction files with
  | nil =>
    intro f err h
    have hc := isValidFile_contains h
    have hle := isValidFile_size h
    have hcond : ¬ ((!allowedTypes.contains f.type) = true) := by rw [hc]; simp
    have hcond2 : ¬ (f.size > maxSize) := by omega
    show (validateFiles [f] err).2 = err
    unfold validateFiles
    rw [if_neg hcond, if_neg hcond2]
    rfl
  | cons g gs ih =>
    intro f err h
    show (validateFiles (g :: (gs ++ [f])) err).2 = (validateFiles (g :: gs) err).2
    unfold validateFiles
    by_cases hcond : (!allowedTypes.contains g.type) = true
    · rw [if_pos hcond, if_pos hcond]
      exact ih f _ h
    · rw [if_neg hcond, if_neg hcond]
      by_cases hsz : g.size > maxSize
      · rw [if_pos hsz, if_pos hsz]
        exact ih f _ h
      · rw [if_neg hsz, if_neg hsz]
        exact ih f _ h

/-- The storage key built for the `k`-th file of a batch. -/
def pathOf (env : StorageEnv) (k : Nat) (f : File) : String :=
  env.uuid k ++ "_" ++ f.name

/-- The entries a fully successful upload loop appends, in input order:
the `k`-th valid file contributes `{url: publicUrl(path k), caption: ""}`. -/
def expectedUploads (env : StorageEnv) : Nat → List File → List UploadedPhoto
  | _, [] => []
  | k, f :: fs =>
    { url := env.publicUrl (pathOf env k f), caption := some "" }
      :: expectedUploads env (k + 1) fs

theorem expectedUploads_length (env : StorageEnv) : ∀ (k : Nat) (fs : List File),
    (expectedUploads env k fs).length = fs.length := by
  intro k fs
  induction fs generalizing k with
  | nil => rfl
  | cons f fs ih => simp [expectedUploads, ih]

theorem expectedUploads_caption (env : StorageEnv) : ∀ (k : Nat) (fs : List File),
    ∀ p ∈ expectedUploads env k fs, p.caption = some "" := by
  intro k fs
  induction fs generalizing k with
  | nil => intro p hp; simp [expectedUploads] at hp
  | cons f fs ih =>
    intro p hp
    rcases List.mem_cons.mp hp with h | h
    · rw [h]
    · exact ih (k + 1) p h

theorem uploadLoop_ok (env : StorageEnv) (hup : ∀ p, env.uploadError p = none)
    (hurl : ∀ p, env.publicUrl p ≠ "") : ∀ (fs : List File) (k : Nat)
    (acc : List UploadedPhoto),
    uploadLoop env k fs acc = Except.ok (acc ++ expectedUploads env k fs) := by
  intro fs
  induction fs with
  | nil => intro k acc; simp [uploadLoop, expectedUploads]
  | cons f fs ih =>
    intro k acc
    simp only [uploadLoop, hup]
    rw [if_neg (hurl (env.uuid k ++ "_" ++ f.name))]
    rw [ih]
    simp [expectedUploads, pathOf]

/-- C1: a failed upload or public-URL retrieval (the loop returning an
error) aborts the whole batch: the photo list keeps its prior value (no
partial append), `onUpload` is never invoked, the thrown message is stored
in the error slot (the `catch` converts it, so nothing escapes the
handler), and `uploading` is reset to `false` by the `finally` block. -/
theorem C1_upload_failure_aborts (env : StorageEnv) (files : List File)
    (s : UploaderState) (msg : String)
    (h : uploadLoop env 0 (validateFiles files s.error).1 [] = Except.error msg) :
    (uploadFiles env files s).1.photos = s.photos ∧
    (uploadFiles env files s).2 = [] ∧
    (uploadFiles env files s).1.error = some msg ∧
    (uploadFiles env files s).1.uploading = false := by
  have hne : ¬ ((validateFiles files s.error).1.length = 0) := by
    intro h0
    rw [List.length_eq_zero.mp h0] at h
    simp [uploadLoop] at h
  have heq : uploadFiles env files s =
      ({ s with error := some msg, uploading := false }, []) := by
    unfold uploadFiles
    simp only [hne, if_false, h]
  rw [heq]
  exact ⟨rfl, rfl, rfl, rfl⟩

def envFailW : StorageEnv :=
  { uuid := fun _ => "u", uploadError := fun _ => some "boom", publicUrl := fun _ => "x" }

def fileW : File := { name := "a.png", type := "image/png", size := 10 }

theorem C1_upload_failure_aborts_witness :
    (uploadFiles envFailW [fileW] initState).1.photos = initState.photos ∧
    (uploadFiles envFailW [fileW] initState).2 = [] ∧
    (uploadFiles envFailW [fileW] initState).1.error = some "boom" ∧
    (uploadFiles envFailW [fileW] initState).1.uploading = false :=
  C1_upload_failure_aborts envFailW [fileW] initState "boom" rfl

/-- C2: a nonempty batch of files that are all valid, under an environment
where every upload and every public-URL retrieval succeeds, appends
exactly one new entry per input file at the end of the list, in input
order (`expectedUploads` maps the `k`-th file to the `k`-th new entry),
each with an empty caption, and the parent is notified once with the full
new list. -/
theorem C2_valid_batch_appends (env : StorageEnv) (files : List File)
    (s : UploaderState) (hne : files ≠ [])
    (hvalid : ∀ f ∈ files, isValidFile f = true)
    (hup : ∀ p, env.uploadError p = none)
    (hurl : ∀ p, env.publicUrl p ≠ "") :
    (uploadFiles env files s).1.photos = s.photos ++ expectedUploads env 0 files ∧
    (uploadFiles env files s).1.photos.length = s.photos.length + files.length ∧
    (uploadFiles env files s).2 = [s.photos ++ expectedUploads env 0 files] ∧
    (∀ p ∈ expectedUploads env 0 files, p.caption = some "") := by
  have hv := validateFiles_all_valid files s.error hvalid
  have hlenne : ¬ (files.length = 0) := fun h0 => hne (List.length_eq_zero.mp h0)
  have hloop := uploadLoop_ok env hup hurl files 0 []
  have heq : uploadFiles env files s =
      ({ s with photos := s.photos ++ expectedUploads env 0 files, uploading := false },
       [s.photos ++ expectedUploads env 0 files]) := by
    unfold uploadFiles
    rw [hv]
    simp only [hlenne, if_false, hloop, List.nil_append, updatePhotos]
  rw [heq]
  refine ⟨rfl, ?_, rfl, expectedUploads_caption env 0 files⟩
  show (s.photos ++ expectedUploads env 0 files).length = s.photos.length + files.length
  rw [List.length_append, expectedUploads_length]

def envOkW : StorageEnv :=
  { uuid := fun k => "u" ++ toString k, uploadError := fun _ => none,
    publicUrl := fun _ => "https://cdn/p" }

theorem C2_valid_batch_appends_witness :
    (uploadFiles envOkW [fileW] initState).1.photos =
      initState.photos ++ expectedUploads envOkW 0 [fileW] ∧
    (uploadFiles envOkW [fileW] initState).1.photos.length =
      initState.photos.length + [fileW].length ∧
    (uploadFiles envOkW [fileW] initState).2 =
      [initState.photos ++ expectedUploads envOkW 0 [fileW]] ∧
    (∀ p ∈ expectedUploads envOkW 0 [fileW], p.caption = some "") :=
  C2_valid_batch_appends envOkW [fileW] initState (by simp)
    (by decide) (fun _ => rfl) (fun _ => show ("https://cdn/p" : String) ≠ "" by decide)

/-- C3: the validation filter keeps exactly the files with allowed MIME
type and size within bound; when no file passes, no upload is attempted
(the state is returned unchanged apart from the error slot written by the
filter, so `uploading` stays as it was and the list is untouched, with no
parent notification); a failing file appended to a batch overwrites the
error slot with its own message (last failing file wins), while a valid
trailing file leaves the slot as the earlier files set it. -/
theorem C3_per_file_validation (env : StorageEnv) (files : List File)
    (s : UploaderState) (f : File) (err : Option String) :
    ((validateFiles files err).1 = files.filter isValidFile) ∧
    (files.filter isValidFile = [] →
      uploadFiles env files s = ({ s with error := (validateFiles files s.error).2 }, [])) ∧
    (isValidFile f = false →
      (validateFiles (files ++ [f]) err).2 = some (failMsg f)) ∧
    (isValidFile f = true →
      (validateFiles (files ++ [f]) err).2 = (validateFiles files err).2) := by
  refine ⟨validateFiles_fst files err, ?_, validateFiles_snd_append_invalid files f err,
    validateFiles_snd_append_valid files f err⟩
  intro hempty
  have h0 : (validateFiles files s.error).1.length = 0 := by
    rw [validateFiles_fst, hempty]
    rfl
  unfold uploadFiles
  simp only [h0, if_true]

def badFileW : File := { name := "c.gif", type := "image/gif", size := 10 }

theorem C3_per_file_validation_witness :
    (validateFiles [badFileW] none).1 = List.filter isValidFile [badFileW] ∧
    uploadFiles envFailW [badFileW] initState =
      ({ initState with error := (validateFiles [badFileW] initState.error).2 }, []) ∧
    (validateFiles ([fileW] ++ [badFileW]) none).2 = some (failMsg badFileW) ∧
    (validateFiles ([badFileW] ++ [fileW]) none).2 = (validateFiles [badFileW] none).2 := by
  obtain ⟨h1, h2, _, _⟩ := C3_per_file_validation envFailW [badFileW] initState badFileW none
  obtain ⟨_, _, h3, _⟩ := C3_per_file_validation envFailW [fileW] initState badFileW none
  obtain ⟨_, _, _, h4⟩ := C3_per_file_validation envFailW [badFileW] initState fileW none
  exact ⟨h1, h2 (by decide), h3 (by decide), h4 (by decide)⟩

/-- C4: add-by-URL is a no-op on an empty text field; a text the URL
constructor rejects only sets the error `"Invalid URL format."`, leaving
the list and the field untouched; a text it accepts appends exactly
`{url: text, caption: ""}` at the end, notifies the parent with the full
new list, and clears the field. -/
theorem C4_add_url (cp : String → Bool) (s : UploaderState) :
    (s.imageUrl = "" → handleAddUrl cp s = (s, [])) ∧
    (s.imageUrl ≠ "" → cp s.imageUrl = false →
      handleAddUrl cp s = ({ s with error := some "Invalid URL format." }, [])) ∧
    (s.imageUrl ≠ "" → cp s.imageUrl = true →
      handleAddUrl cp s =
        ({ s with imageUrl := "", photos := s.photos ++ [{ url := s.imageUrl, caption := some "" }] },
         [s.photos ++ [{ url := s.imageUrl, caption := some "" }]])) := by
  refine ⟨?_, ?_, ?_⟩
  · intro h
    unfold handleAddUrl
    rw [if_pos h]
  · intro h hcp
    have hb : (!(cp s.imageUrl)) = true := by rw [hcp]; rfl
    unfold handleAddUrl
    rw [if_neg h, if_pos hb]
  · intro h hcp
    have hb : ¬ ((!(cp s.imageUrl)) = true) := by rw [hcp]; simp
    unfold handleAddUrl
    rw [if_neg h, if_neg hb]
    rfl

def urlStateW : UploaderState :=
  { uploading := false, error := none, photos := [], imageUrl := "https://x.test/1.jpg" }

theorem C4_add_url_witness :
    handleAddUrl (fun _ => true) initState = (initState, []) ∧
    handleAddUrl (fun _ => false) urlStateW =
      ({ urlStateW with error := some "Invalid URL format." }, []) ∧
    handleAddUrl (fun _ => true) urlStateW =
      ({ urlStateW with imageUrl := "", photos := urlStateW.photos ++ [{ url := urlStateW.imageUrl, caption := some "" }] },
       [urlStateW.photos ++ [{ url := urlStateW.imageUrl, caption := some "" }]]) := by
  obtain ⟨h1, _, _⟩ := C4_add_url (fun _ => true) initState
  obtain ⟨_, h2, _⟩ := C4_add_url (fun _ => false) urlStateW
  obtain ⟨_, _, h3⟩ := C4_add_url (fun _ => true) urlStateW
  exact ⟨h1 rfl, h2 (by decide) rfl, h3 (by decide) rfl⟩

/-- C5: on every mutation path (file upload, add-by-URL, removal,
single-step move, drag reorder, caption edit), each list handed to the
parent through `onUpload` is exactly the photo list the component keeps
after the handler finishes — the full value, never a delta. -/
theorem C5_parent_sync (env : StorageEnv) (cp : String → Bool) (s : UploaderState)
    (files : List File) (e : DragEndEvent) (i : Nat) (t : Int) (c : String) :
    (∀ em ∈ (uploadFiles env files s).2, em = (uploadFiles env files s).1.photos) ∧
    (∀ em ∈ (handleAddUrl cp s).2, em = (handleAddUrl cp s).1.photos) ∧
    (∀ em ∈ (removePhoto s i).2, em = (removePhoto s i).1.photos) ∧
    (∀ em ∈ (movePhoto s i t).2, em = (movePhoto s i t).1.photos) ∧
    (∀ em ∈ (handleDragEnd s e).2, em = (handleDragEnd s e).1.photos) ∧
    (∀ em ∈ (onCaptionChange s i c).2, em = (onCaptionChange s i c).1.photos) := by
  refine ⟨?_, ?_, ?_, ?_, ?_, ?_⟩
  · by_cases h0 : (validateFiles files s.error).1.length = 0
    · have heq : uploadFiles env files s =
          ({ s with error := (validateFiles files s.error).2 }, []) := by
        unfold uploadFiles
        simp only [h0, if_true]
      rw [heq]
      intro em hem
      simp at hem
    · cases hloop : uploadLoop env 0 (validateFiles files s.error).1 [] with
      | ok ups =>
        have h2 : (uploadFiles env files s).2 = [s.photos ++ ups] := by
          unfold uploadFiles
          simp only [h0, if_false, hloop, updatePhotos]
        have h1 : (uploadFiles env files s).1.photos = s.photos ++ ups := by
          unfold uploadFiles
          simp only [h0, if_false, hloop, updatePhotos]
        intro em hem
        rw [h2] at hem
        simp at hem
        rw [hem, h1]
      | error msg =>
        have h2 : (uploadFiles env files s).2 = [] := by
          unfold uploadFiles
          simp only [h0, if_false, hloop]
        intro em hem
        rw [h2] at hem
        simp at hem
  · by_cases hempty : s.imageUrl = ""
    · unfold handleAddUrl
      rw [if_pos hempty]
      intro em hem
      simp at hem
    · cases hcp : cp s.imageUrl with
      | false =>
        have hb : (!(cp s.imageUrl)) = true := by rw [hcp]; rfl
        unfold handleAddUrl
        rw [if_neg hempty, if_pos hb]
        intro em hem
        simp at hem
      | true =>
        have hb : ¬ ((!(cp s.imageUrl)) = true) := by rw [hcp]; simp
        unfold handleAddUrl
        rw [if_neg hempty, if_neg hb]
        intro em hem
        simp [updatePhotos] at hem
        rw [hem]
        rfl
  · intro em hem
    unfold removePhoto updatePhotos at hem ⊢
    simp at hem
    rw [hem]
  · intro em hem
    unfold movePhoto at hem ⊢
    by_cases hg : t < 0 ∨ (s.photos.length : Int) ≤ t
    · rw [if_pos hg] at hem
      simp at hem
    · rw [if_neg hg] at hem ⊢
      unfold jsSpliceRemove1 at hem ⊢
      cases hx : s.photos[jsSpliceStart s.photos.length (i : Int)]? with
      | none =>
        rw [hx] at hem
        simp at hem
      | some moved =>
        rw [hx] at hem
        simp only [updatePhotos, List.mem_singleton] at hem
        rw [hem]
        rfl
  · intro em hem
    unfold handleDragEnd at hem ⊢
    by_cases hov : e.overId = some e.activeId
    · rw [if_pos hov] at hem
      simp at hem
    · rw [if_neg hov] at hem ⊢
      simp [updatePhotos] at hem
      rw [hem]
      rfl
  · intro em hem
    unfold onCaptionChange at hem ⊢
    cases hx : s.photos[i]? with
    | none =>
      rw [hx] at hem
      simp at hem
    | some p =>
      rw [hx] at hem
      simp only [updatePhotos, List.mem_singleton] at hem
      rw [hem]
      rfl

def syncStateW : UploaderState :=
  { uploading := false, error := none,
    photos := [{ url := "u0", caption := some "" }], imageUrl := "" }

theorem C5_parent_sync_witness :
    ([{ url := "u0", caption := some "" }] : List UploadedPhoto) =
      (removePhoto syncStateW 1).1.photos :=
  (C5_parent_sync envFailW (fun _ => true) syncStateW [] ⟨"a", none⟩ 1 0 "").2.2.1
    [{ url := "u0", caption := some "" }] (by decide)

def dragStateW : UploaderState :=
  { uploading := false, error := none,
    photos := [{ url := "a", caption := some "" }, { url := "b", caption := some "" }],
    imageUrl := "" }

def dragEventW : DragEndEvent := { activeId := "photo-0", overId := none }

/-- C6 counterexample: with two photos, ending a drag of `photo-0` with no
drop target (`over = null`) is not a no-op — the guard
`active.id !== over?.id` passes because a string is never `undefined`,
`findIndex` misses and returns `-1`, and `arrayMove(photos, 0, -1)` moves
the dragged entry to the end, after which the parent is notified. -/
theorem C6_drag_outside_counterexample :
    ¬ ((handleDragEnd dragStateW dragEventW).1.photos = dragStateW.photos ∧
       (handleDragEnd dragStateW dragEventW).2 = []) := by decide

/-- C6 amended: dropping an item on itself leaves the state untouched and
emits nothing; dropping with no drop target moves the dragged entry (at
resolved position `k`) to the end of the list and notifies the parent
with that reordered list. -/
theorem C6_drag_end_self_and_outside (s : UploaderState) (e : DragEndEvent) (k : Nat) :
    (e.overId = some e.activeId → handleDragEnd s e = (s, [])) ∧
    (e.overId = none → findPhotoIndex s.photos.length (some e.activeId) = (k : Int) →
      ∀ hk : k < s.photos.length,
        (handleDragEnd s e).1.photos = s.photos.eraseIdx k ++ [s.photos[k]] ∧
        (handleDragEnd s e).2 = [s.photos.eraseIdx k ++ [s.photos[k]]]) := by
  constructor
  · intro h
    unfold handleDragEnd
    rw [if_pos h]
  · intro hov hfind hk
    have hne : ¬ (e.overId = some e.activeId) := by rw [hov]; simp
    have hfn : findPhotoIndex s.photos.length none = -1 := by
      unfold findPhotoIndex
      have hnone : (List.range s.photos.length).find?
          (fun i => some ("photo-" ++ toString i) == (none : Option String)) = none := by
        rw [List.find?_eq_none]
        intro x hx
        simp
      rw [hnone]
    have hmove := arrayMove_neg_one s.photos k hk
    unfold handleDragEnd
    rw [if_neg hne, hov, hfn, hfind]
    refine ⟨?_, ?_⟩
    · show arrayMove s.photos (k : Int) (-1) = s.photos.eraseIdx k ++ [s.photos[k]]
      exact hmove
    · show [arrayMove s.photos (k : Int) (-1)] = [s.photos.eraseIdx k ++ [s.photos[k]]]
      rw [hmove]

theorem C6_drag_end_self_and_outside_witness :
    handleDragEnd dragStateW { activeId := "photo-0", overId := some "photo-0" } =
      (dragStateW, []) ∧
    (handleDragEnd dragStateW dragEventW).1.photos =
      dragStateW.photos.eraseIdx 0 ++ [dragStateW.photos[0]] ∧
    (handleDragEnd dragStateW dragEventW).2 =
      [dragStateW.photos.eraseIdx 0 ++ [dragStateW.photos[0]]] := by
  refine ⟨(C6_drag_end_self_and_outside dragStateW
    { activeId := "photo-0", overId := some "photo-0" } 0).1 rfl, ?_⟩
  exact (C6_drag_end_self_and_outside dragStateW dragEventW 0).2 rfl (by decide) (by decide)

/-- C7: the drag-reorder operation (`arrayMove`: remove at the source
index, insert at the destination index) yields the same list as walking
the entry from `i` to `j` with repeated single-step `movePhoto` calls,
for any in-range positions. -/
theorem C7_drag_reorder_eq_repeated_moves (s : UploaderState) (i j : Nat)
    (hi : i < s.photos.length) (hj : j < s.photos.length) :
    arrayMove s.photos (i : Int) (j : Int) = (repeatedMoves s i j).photos := by
  rw [arrayMove_eq_listMove s.photos i j hi hj, repeatedMoves_photos s i j hi hj]

def moveStateW : UploaderState :=
  { uploading := false, error := none,
    photos := [{ url := "a", caption := some "" }, { url := "b", caption := some "" },
      { url := "c", caption := some "" }],
    imageUrl := "" }

theorem C7_drag_reorder_eq_repeated_moves_witness :
    arrayMove moveStateW.photos ((0 : Nat) : Int) ((2 : Nat) : Int) =
      (repeatedMoves moveStateW 0 2).photos :=
  C7_drag_reorder_eq_repeated_moves moveStateW 0 2 (by decide) (by decide)

/-- C8: for an index strictly inside the list, `movePhoto(i, i-1)`
followed by `movePhoto(i-1, i)` (up then down) restores the original
list. -/
theorem C8_move_up_down_restores (s : UploaderState) (i : Nat) (h0 : 0 < i)
    (hi : i < s.photos.length) :
    (movePhoto (movePhoto s i ((i : Int) - 1)).1 (i - 1) (i : Int)).1.photos =
      s.photos := by
  have ht1 : ((i : Int) - 1).toNat = i - 1 := by omega
  have hb1 := movePhoto_eq s i ((i : Int) - 1) hi (by omega) (by omega)
  rw [ht1] at hb1
  rw [hb1]
  have hlen : (listMove s.photos i (i - 1)).length = s.photos.length :=
    listMove_length _ _ _ hi (by omega)
  have hb2 := movePhoto_eq { s with photos := listMove s.photos i (i - 1) } (i - 1)
    (i : Int)
    (by show i - 1 < (listMove s.photos i (i - 1)).length; rw [hlen]; omega)
    (by omega)
    (by show (i : Int) < ((listMove s.photos i (i - 1)).length : Int); rw [hlen]; omega)
  have ht2 : ((i : Nat) : Int).toNat = i := by omega
  rw [ht2] at hb2
  show (movePhoto { s with photos := listMove s.photos i (i - 1) } (i - 1) (i : Int)).1.photos =
    s.photos
  rw [hb2]
  show listMove (listMove s.photos i (i - 1)) (i - 1) i = s.photos
  exact listMove_down_up s.photos i h0 hi

theorem C8_move_up_down_restores_witness :
    (movePhoto (movePhoto moveStateW 1 (((1 : Nat) : Int) - 1)).1 (1 - 1)
      ((1 : Nat) : Int)).1.photos = moveStateW.photos :=
  C8_move_up_down_restores moveStateW 1 (by decide) (by decide)

/-- C9: editing the caption of the entry at an in-range index replaces
exactly that entry's caption with the new text; every other position is
unchanged, the entry's url and the list length are preserved, and the
parent is notified with the full updated list. -/
theorem C9_caption_edit_frame (s : UploaderState) (i : Nat) (c : String)
    (h : i < s.photos.length) :
    (onCaptionChange s i c).1.photos[i]? =
      (s.photos[i]?).map (fun p => { p with caption := some c }) ∧
    (∀ k, k ≠ i → (onCaptionChange s i c).1.photos[k]? = s.photos[k]?) ∧
    (onCaptionChange s i c).1.photos.length = s.photos.length ∧
    (onCaptionChange s i c).2 = [(onCaptionChange s i c).1.photos] := by
  have hx : s.photos[i]? = some s.photos[i] := List.getElem?_eq_getElem h
  have heq : onCaptionChange s i c =
      ({ s with photos := s.photos.set i { s.photos[i] with caption := some c } },
       [s.photos.set i { s.photos[i] with caption := some c }]) := by
    unfold onCaptionChange
    rw [hx]
    rfl
  rw [heq]
  refine ⟨?_, ?_, ?_, rfl⟩
  · rw [hx]
    show (s.photos.set i { s.photos[i] with caption := some c })[i]? = _
    simp [List.getElem?_set_self, h]
  · intro k hk
    show (s.photos.set i { s.photos[i] with caption := some c })[k]? = s.photos[k]?
    rw [List.getElem?_set_ne (by omega)]
  · simp

theorem C9_caption_edit_frame_witness :
    (onCaptionChange moveStateW 1 "hi").1.photos[1]? =
      (moveStateW.photos[1]?).map (fun p => { p with caption := some "hi" }) ∧
    (onCaptionChange moveStateW 1 "hi").1.photos[0]? = moveStateW.photos[0]? ∧
    (onCaptionChange moveStateW 1 "hi").1.photos.length = moveStateW.photos.length ∧
    (onCaptionChange moveStateW 1 "hi").2 = [(onCaptionChange moveStateW 1 "hi").1.photos] := by
  obtain ⟨h1, h2, h3, h4⟩ := C9_caption_edit_frame moveStateW 1 "hi" (by decide)
  exact ⟨h1, h2 0 (by decide), h3, h4⟩

/-- C10: the mount effect seeds the internal list from a nonempty
`existingPhotos` without invoking `onUpload`, and leaves the list empty
when `existingPhotos` is empty. -/
theorem C10_mount_seeding_silent (ep : List UploadedPhoto) :
    (mountEffect ep initState).2 = [] ∧
    (ep ≠ [] → (mountEffect ep initState).1.photos = ep) ∧
    (ep = [] → (mountEffect ep initState).1.photos = []) := by
  by_cases h : ep.length > 0
  · unfold mountEffect
    rw [if_pos h]
    exact ⟨rfl, fun _ => rfl, fun h0 => by rw [h0]⟩
  · have hnil : ep = [] := by
      cases ep with
      | nil => rfl
      | cons a l => simp at h
    unfold mountEffect
    rw [if_neg h]
    exact ⟨rfl, fun hne => absurd hnil hne, fun _ => rfl⟩

theorem C10_mount_seeding_silent_witness :
    (mountEffect [{ url := "u", caption := some "" }] initState).2 = [] ∧
    (mountEffect [{ url := "u", caption := some "" }] initState).1.photos =
      [{ url := "u", caption := some "" }] ∧
    (mountEffect ([] : List UploadedPhoto) initState).1.photos = [] := by
  obtain ⟨h1, h2, _⟩ := C10_mount_seeding_silent [{ url := "u", caption := some "" }]
  obtain ⟨_, _, h3⟩ := C10_mount_seeding_silent ([] : List UploadedPhoto)
  exact ⟨h1, h2 (by simp), h3 rfl⟩

end ImageUploader
